import Mathlib

/-!
Verification of the neurovisor VM-orchestration system against its
natural-language specification.  Each section shallowly embeds one Rust
component (the file and functions are named in the section header) and proves
or refutes the spec claims about it.  Machine integers are modelled as `Nat`
with explicit `% 2 ^ w` where wrap-around matters; fallible operations return
`Except`; concurrent code is modelled as a sequential interleaving of its
atomic (lock-protected) steps.
-/

namespace Neurovisor

/-!
## String primitives

Rust's `str::trim`, `str::starts_with` and numeric parsing, re-implemented
structurally over the character list of a `String` so that every definition
evaluates inside the kernel.  `isWsp` covers the ASCII whitespace characters
(the only ones the claims exercise; Rust's `char::is_whitespace` is the
Unicode superset).
-/

def isWsp (c : Char) : Bool := c = ' ' ∨ c = '\t' ∨ c = '\n' ∨ c = '\r'

/-- `str::trim`: drop whitespace from both ends. -/
def rustTrim (s : String) : String :=
  ⟨((s.data.dropWhile isWsp).reverse.dropWhile isWsp).reverse⟩

/-- `str::starts_with`. -/
def strStartsWith (s p : String) : Bool := p.data.isPrefixOf s.data

/-- Whether a string parses as a base-ten natural number (the success
condition of `str::parse::<u32>` up to range). -/
def allDigits (s : String) : Bool :=
  !s.data.isEmpty && s.data.all (fun c => '0' ≤ c && c ≤ '9')

/-!
## VM pool (src/vm/pool.rs)

`VMPool` keeps a warm vector and an active counter, both behind mutexes.
Only the counts matter for the capacity claims, so the state is the pair of
counts.  Each public operation is one transition; VM creation can fail, so
`warmInit` (the source's `initialize`) and `replenish` carry the number of
`create_vm` calls that succeeded (`initialize` attempts exactly
`target_warm_size` creates; `replenish` stops at the first failure, hence a
prefix of the burst succeeds).
-/

structure PoolState where
  warm : Nat
  active : Nat
deriving Repr, DecidableEq

/-- `VMPool::new`: empty warm vector, zero active. -/
def poolNew : PoolState := { warm := 0, active := 0 }

inductive PoolOp where
  /-- `initialize()`: pushes one handle per successful `create_vm`; the loop
  runs `target_warm_size` times, so at most `target` creates can succeed. -/
  | warmInit (succ : Nat)
  /-- `acquire()`: the capacity pre-check errors only when the warm pool is
  empty; otherwise pop one warm handle and increment `active`. -/
  | acquire
  /-- `release(handle)`: decrement `active` if positive (the guard
  `if *active > 0`); destruction happens outside the lock. -/
  | release
  /-- `replenish()`: read `(warm, active)`; if `total >= max` do nothing, else
  create `min (target - warm) (max - total)` VMs, stopping at the first
  failure (`succ` creates succeed). -/
  | replenish (succ : Nat)
deriving Repr, DecidableEq

def PoolOp.isWarmInit : PoolOp → Bool
  | .warmInit _ => true
  | _ => false

def applyOp (target maxSize : Nat) (s : PoolState) : PoolOp → PoolState
  | .warmInit succ => { s with warm := s.warm + min succ target }
  | .acquire =>
      if s.warm = 0 then s
      else { warm := s.warm - 1, active := s.active + 1 }
  | .release => { s with active := s.active - 1 }
  | .replenish succ =>
      if maxSize ≤ s.warm + s.active then s
      else
        let toCreate := min (target - s.warm) (maxSize - (s.warm + s.active))
        { s with warm := s.warm + min succ toCreate }

def runOps (target maxSize : Nat) (s : PoolState) (ops : List PoolOp) : PoolState :=
  ops.foldl (applyOp target maxSize) s

lemma applyOp_sum_le (target maxSize : Nat) (s : PoolState) (op : PoolOp)
    (hop : op.isWarmInit = false)
    (h : s.warm + s.active ≤ maxSize) :
    (applyOp target maxSize s op).warm + (applyOp target maxSize s op).active ≤ maxSize := by
  cases op with
  | warmInit succ => simp [PoolOp.isWarmInit] at hop
  | acquire =>
      by_cases hw : s.warm = 0 <;> simp [applyOp, hw] <;> omega
  | release =>
      simp [applyOp]; omega
  | replenish succ =>
      by_cases hm : maxSize ≤ s.warm + s.active
      · simpa [applyOp, hm] using h
      · simp only [applyOp, if_neg hm]
        omega

lemma runOps_sum_le (target maxSize : Nat) (ops : List PoolOp) :
    ∀ s : PoolState, (∀ op ∈ ops, op.isWarmInit = false) →
      s.warm + s.active ≤ maxSize →
      (runOps target maxSize s ops).warm + (runOps target maxSize s ops).active ≤ maxSize := by
  induction ops with
  | nil => intro s _ h; simpa [runOps] using h
  | cons op rest ih =>
      intro s hops h
      have hop : op.isWarmInit = false := hops op (List.mem_cons_self op rest)
      have hrest : ∀ o ∈ rest, o.isWarmInit = false := fun o ho => hops o (List.mem_cons_of_mem op ho)
      simpa [runOps] using ih (applyOp target maxSize s op) hrest (applyOp_sum_le target maxSize s op hop h)

/-- C1 counterexample: with `target_warm_size = 2 ≤ max_pool_size = 3`, the
sequence `[initialize, initialize]` (both fully successful) is a sequence of
the claim's operations after which `warm + active = 4 > 3`: `initialize`
pushes `target_warm_size` handles without any capacity check. -/
theorem pool_capacity_counterexample :
    (2 ≤ 3) ∧
    runOps 2 3 poolNew [PoolOp.warmInit 2, PoolOp.warmInit 2] = { warm := 4, active := 0 } ∧
    ¬ ((runOps 2 3 poolNew [PoolOp.warmInit 2, PoolOp.warmInit 2]).warm
        + (runOps 2 3 poolNew [PoolOp.warmInit 2, PoolOp.warmInit 2]).active ≤ 3) := by
  refine ⟨by decide, by decide, by decide⟩

/-- C1 (amended): if `initialize` is performed at most once and only as the
first operation, then after any subsequent sequence of acquire, release and
replenish operations (with any pattern of creation successes and failures)
the invariant `warm + active ≤ max_pool_size` holds, assuming
`target_warm_size ≤ max_pool_size`; hence every `stats()` observation
satisfies it. -/
theorem pool_capacity_invariant (target maxSize succ : Nat) (ops : List PoolOp)
    (htm : target ≤ maxSize)
    (hops : ∀ op ∈ ops, op.isWarmInit = false) :
    (runOps target maxSize (applyOp target maxSize poolNew (PoolOp.warmInit succ)) ops).warm
      + (runOps target maxSize (applyOp target maxSize poolNew (PoolOp.warmInit succ)) ops).active
      ≤ maxSize := by
  have hinit : (applyOp target maxSize poolNew (PoolOp.warmInit succ)).warm
      + (applyOp target maxSize poolNew (PoolOp.warmInit succ)).active ≤ maxSize := by
    simp only [applyOp, poolNew]
    omega
  exact runOps_sum_le target maxSize ops _ hops hinit

/-- Witness for C1's amended theorem at a concrete pool and operation list. -/
theorem pool_capacity_invariant_witness :
    (runOps 2 3 (applyOp 2 3 poolNew (PoolOp.warmInit 2))
        [PoolOp.acquire, PoolOp.replenish 5, PoolOp.acquire, PoolOp.release]).warm
      + (runOps 2 3 (applyOp 2 3 poolNew (PoolOp.warmInit 2))
        [PoolOp.acquire, PoolOp.replenish 5, PoolOp.acquire, PoolOp.release]).active
      ≤ 3 :=
  pool_capacity_invariant 2 3 2 _ (by decide) (by decide)

/-!
## CID allocation (src/vm/manager.rs)

`VMManager::new` initialises `next_cid: AtomicU32` to 3; `allocate_cid` is
`fetch_add(1, SeqCst)`, which wraps modulo `2 ^ 32`.  The n-th allocation
(counting from 0) therefore returns `(3 + n) % 2 ^ 32`.
-/

def nthCid (n : Nat) : Nat := (3 + n) % 2 ^ 32

/-- C2 counterexample: the `AtomicU32` counter wraps.  Allocation number
4294967292 yields CID 4294967295 and the next one yields 0, so the sequence
is not strictly monotone over the process lifetime; allocation number
4294967296 returns CID 3 again, reusing the very first CID. -/
theorem cid_counterexample :
    nthCid 4294967292 = 4294967295 ∧
    nthCid 4294967293 = 0 ∧
    ¬ (nthCid 4294967292 < nthCid 4294967293) ∧
    nthCid 4294967296 = nthCid 0 := by
  refine ⟨by norm_num [nthCid], by norm_num [nthCid], by norm_num [nthCid], by norm_num [nthCid]⟩

/-- C2 (amended): the first allocated CID is 3, and within the first
`2 ^ 32 - 3` allocations (indices up to 4294967292) CIDs are strictly
monotonically increasing, hence pairwise distinct and never reused. -/
theorem cid_monotone_amended (i j : Nat) (hij : i < j) (hj : j ≤ 4294967292) :
    nthCid 0 = 3 ∧ nthCid i < nthCid j ∧ nthCid i ≠ nthCid j := by
  have hi' : 3 + i < 2 ^ 32 := by omega
  have hj' : 3 + j < 2 ^ 32 := by omega
  unfold nthCid
  rw [Nat.mod_eq_of_lt hi', Nat.mod_eq_of_lt hj', Nat.mod_eq_of_lt (by norm_num)]
  omega

/-- Witness for C2's amended theorem. -/
theorem cid_monotone_amended_witness :
    nthCid 0 = 3 ∧ nthCid 0 < nthCid 1 ∧ nthCid 0 ≠ nthCid 1 :=
  cid_monotone_amended 0 1 (by decide) (by decide)

/-!
## Guest execution server (src/guest/agent/main.rs)

The guest gRPC server dispatches a request's `language` to a command
(`execute` and `execute_stream` use the same match, except that the streaming
python invocation adds `-u` and the temp-file names differ), runs the child
and reports the outcome.  Filesystem and toolchain effects that the dispatch
depends on (the `std::fs::write` of the temp source and the synchronous
`rustc` run) are parameters of the model; so is the child's behaviour.
-/

inductive GStatus where
  | invalidArgument (msg : String)
  | internal (msg : String)
deriving Repr, DecidableEq

/-- `ExecuteResponse` proto message; `duration_ms : f64` is omitted (wall
clock floating-point timing is not modelled). -/
structure ExecuteResponse where
  stdout : String
  stderr : String
  exit_code : Int
  timed_out : Bool
deriving Repr, DecidableEq

/-- Effects visible to the language dispatch. -/
structure GuestFx where
  /-- `std::process::id()` of the guest agent. -/
  pid : Nat
  /-- whether `std::fs::write` of the temp source file succeeds. -/
  writeOk : Bool
  /-- whether the `rustc` child could be spawned and waited. -/
  rustcRan : Bool
  /-- `output.status.success()` of the `rustc` run. -/
  rustcSuccess : Bool
  /-- captured compiler stderr. -/
  rustcStderr : String
deriving Repr, DecidableEq

def tempStem (streaming : Bool) (pid : Nat) : String :=
  "/tmp/exec_" ++ (if streaming then "stream_" else "") ++ toString pid

/-- The language match of `execute` / `execute_stream`: command, argument
list and the temp file to clean up.  Mirrors the source arm by arm. -/
def dispatch (fx : GuestFx) (streaming : Bool) (language code : String) :
    Except GStatus (String × List String × Option String) :=
  if language = "python" ∨ language = "python3" then
    .ok ("python3", (if streaming then ["-u", "-c", code] else ["-c", code]), none)
  else if language = "bash" ∨ language = "sh" ∨ language = "shell" then
    .ok ("/bin/sh", ["-c", code], none)
  else if language = "javascript" ∨ language = "node" then
    .ok ("node", ["-e", code], none)
  else if language = "go" ∨ language = "golang" then
    if fx.writeOk then
      .ok ("go", ["run", tempStem streaming fx.pid ++ ".go"], some (tempStem streaming fx.pid ++ ".go"))
    else .error (.internal "Failed to write Go file")
  else if language = "rust" ∨ language = "rs" then
    if fx.writeOk then
      if fx.rustcRan then
        if fx.rustcSuccess then
          .ok (tempStem streaming fx.pid, [], some (tempStem streaming fx.pid))
        else .error (.invalidArgument ("Rust compile error: " ++ fx.rustcStderr))
      else .error (.internal "Failed to run rustc")
    else .error (.internal "Failed to write Rust file")
  else
    .error (.invalidArgument ("Unsupported language: " ++ language ++
      ". Supported: python, bash/sh, javascript, go, rust"))

/-- Behaviour of `timeout(timeout_duration, cmd.output())` in the unary path. -/
inductive ChildOutcome where
  /-- the child finished within the timeout; `code` is `status.code()`. -/
  | completed (stdout stderr : String) (code : Option Int)
  /-- `cmd.output()` itself returned an I/O error. -/
  | ioError (msg : String)
  /-- the wall clock exceeded `timeout_secs` before `cmd.output()` finished. -/
  | timedOut
deriving Repr, DecidableEq

structure UnaryResult where
  response : Except GStatus ExecuteResponse
  /-- whether this code path performed a kill of the child process.  The
  unary timeout arm merely drops the `cmd.output()` future; tokio's default
  `kill_on_drop(false)` means the dropped child keeps running, and the source
  contains no `kill` call on any unary path. -/
  childKilled : Bool
deriving Repr

/-- `ExecutionServer::execute` (unary). -/
def execute (fx : GuestFx) (language code : String) (outcome : ChildOutcome) : UnaryResult :=
  match dispatch fx false language code with
  | .error st => { response := .error st, childKilled := false }
  | .ok _ =>
    match outcome with
    | .completed out err code =>
        { response := .ok { stdout := out
                            stderr := err
                            exit_code := code.getD (-1)
                            timed_out := false }
          childKilled := false }
    | .ioError m =>
        { response := .error (.internal ("Execution error: " ++ m)), childKilled := false }
    | .timedOut =>
        { response := .ok { stdout := ""
                            stderr := "Execution timed out"
                            exit_code := -1
                            timed_out := true }
          childKilled := false }

inductive ChunkOutput where
  | stdoutChunk (s : String)
  | stderrChunk (s : String)
deriving Repr, DecidableEq

structure ExecuteMetadata where
  exit_code : Int
  timed_out : Bool
deriving Repr, DecidableEq

structure ExecuteChunk where
  output : Option ChunkOutput
  is_final : Bool
  metadata : Option ExecuteMetadata
deriving Repr, DecidableEq

/-- One element sent over the mpsc channel: `Result<ExecuteChunk, Status>`. -/
inductive StreamItem where
  | ok (c : ExecuteChunk)
  | err (st : GStatus)
deriving Repr, DecidableEq

/-- One line produced by the child on stdout or stderr, in arrival order. -/
inductive OutLine where
  | stdoutLine (s : String)
  | stderrLine (s : String)
deriving Repr, DecidableEq

/-- The reader tasks re-append the `\n` that `lines()` stripped. -/
def lineChunk : OutLine → ExecuteChunk
  | .stdoutLine s => { output := some (.stdoutChunk (s ++ "\n")), is_final := false, metadata := none }
  | .stderrLine s => { output := some (.stderrChunk (s ++ "\n")), is_final := false, metadata := none }

/-- Behaviour of `timeout(timeout_duration, child.wait())` in the streaming task. -/
inductive WaitOutcome where
  | exited (code : Option Int)
  | waitError (msg : String)
  | timedOut
deriving Repr, DecidableEq

/-- Items sent after the reader tasks are drained, and whether `child.kill()`
ran, per the match on the wait result. -/
def finalItems : WaitOutcome → List StreamItem × Bool
  | .exited code =>
      ([.ok { output := none, is_final := true,
              metadata := some { exit_code := code.getD (-1), timed_out := false } }], false)
  | .waitError m => ([.err (.internal m)], false)
  | .timedOut =>
      ([.ok { output := some (.stderrChunk "Execution timed out\n"), is_final := true,
              metadata := some { exit_code := -1, timed_out := true } }], true)

structure StreamRun where
  items : List StreamItem
  childKilled : Bool
deriving Repr, DecidableEq

/-- `ExecutionServer::execute_stream`: language dispatch, then the spawned
task emits one chunk per line followed by the wait-result items. -/
def execute_stream (fx : GuestFx) (language code : String) (spawnOk : Bool)
    (lines : List OutLine) (w : WaitOutcome) : Except GStatus StreamRun :=
  match dispatch fx true language code with
  | .error st => .error st
  | .ok _ =>
    if spawnOk then
      .ok { items := lines.map (fun l => .ok (lineChunk l)) ++ (finalItems w).1,
            childKilled := (finalItems w).2 }
    else
      .ok { items := [.err (.internal "Failed to spawn")], childKilled := false }

def isFinalChunk : StreamItem → Bool
  | .ok c => c.is_final
  | .err _ => false

def countFinal (items : List StreamItem) : Nat := (items.filter isFinalChunk).length

/-- A concrete guest environment used in counterexamples and witnesses. -/
def fx1 : GuestFx :=
  { pid := 1, writeOk := true, rustcRan := true, rustcSuccess := true, rustcStderr := "" }

def WaitOutcome.isWaitError : WaitOutcome → Bool
  | .waitError _ => true
  | _ => false

lemma countFinal_lineChunks (lines : List OutLine) (rest : List StreamItem) :
    countFinal (lines.map (fun l => .ok (lineChunk l)) ++ rest) = countFinal rest := by
  induction lines with
  | nil => rfl
  | cons l ls ih =>
      cases l <;> simpa [countFinal, lineChunk, isFinalChunk, List.filter] using ih

/-- C3: at the failing input (unary `Execute` of bash `sleep 10` with the
child outliving `timeout_secs`) the delivered response has
`timed_out = true` and `exit_code = -1 < 0`, but the unary path performs no
kill of the child: the timeout arm only drops the `cmd.output()` future
(tokio's `kill_on_drop` defaults to false), so the child is still running
when the response is delivered.  Only the streaming path calls
`child.kill()` before its `Final` chunk, as the second conjunct shows. -/
theorem unary_timeout_kill_divergence :
    execute fx1 "bash" "sleep 10" .timedOut =
      { response := .ok { stdout := ""
                          stderr := "Execution timed out"
                          exit_code := -1
                          timed_out := true }
        childKilled := false } ∧
    execute_stream fx1 "bash" "sleep 10" true [] .timedOut =
      .ok { items := [.ok { output := some (.stderrChunk "Execution timed out\n")
                            is_final := true
                            metadata := some { exit_code := -1, timed_out := true } }]
            childKilled := true } :=
  ⟨rfl, rfl⟩

/-- C4 counterexample: on the wait-error termination path the stream is
terminated by a `Status` error item; the emitted chunk sequence contains
zero chunks with `is_final = true`, not exactly one. -/
theorem stream_final_counterexample :
    execute_stream fx1 "bash" "true" true [OutLine.stdoutLine "hi"] (.waitError "boom") =
      .ok { items := [.ok (lineChunk (.stdoutLine "hi")), .err (.internal "boom")]
            childKilled := false } ∧
    countFinal [.ok (lineChunk (.stdoutLine "hi")), .err (.internal "boom")] = 0 :=
  ⟨rfl, rfl⟩

/-- C4 (amended): for every streaming call whose language dispatch and spawn
succeed, on the normal-exit and timeout termination paths the emitted
sequence contains exactly one chunk with `is_final = true` and that chunk is
the last element; on the wait-error path a `Status` error item terminates
the stream instead and no final chunk is emitted. -/
theorem stream_final_amended (fx : GuestFx) (language code : String)
    (lines : List OutLine) (w : WaitOutcome) (run : StreamRun)
    (hw : w.isWaitError = false)
    (h : execute_stream fx language code true lines w = .ok run) :
    countFinal run.items = 1 ∧
    ∃ c : ExecuteChunk, run.items.getLast? = some (.ok c) ∧ c.is_final = true := by
  unfold execute_stream at h
  cases hd : dispatch fx true language code with
  | error st => rw [hd] at h; cases h
  | ok cmd =>
      rw [hd] at h
      simp only [if_pos rfl, ite_true] at h
      have hrun : run = { items := lines.map (fun l => .ok (lineChunk l)) ++ (finalItems w).1,
                          childKilled := (finalItems w).2 } := by
        cases h; rfl
      subst hrun
      cases w with
      | exited code =>
          refine ⟨by rw [countFinal_lineChunks]; rfl, ?_⟩
          refine ⟨{ output := none
                    is_final := true
                    metadata := some { exit_code := code.getD (-1), timed_out := false } }, ?_, rfl⟩
          show (List.map _ lines ++ [StreamItem.ok _]).getLast? = _
          rw [List.getLast?_append_cons]; rfl
      | waitError m => simp [WaitOutcome.isWaitError] at hw
      | timedOut =>
          refine ⟨by rw [countFinal_lineChunks]; rfl, ?_⟩
          refine ⟨{ output := some (.stderrChunk "Execution timed out\n")
                    is_final := true
                    metadata := some { exit_code := -1, timed_out := true } }, ?_, rfl⟩
          show (List.map _ lines ++ [StreamItem.ok _]).getLast? = _
          rw [List.getLast?_append_cons]; rfl

/-- Witness for C4's amended theorem: normal exit with no output lines. -/
theorem stream_final_amended_witness :
    countFinal [StreamItem.ok { output := none
                                is_final := true
                                metadata := some { exit_code := 0, timed_out := false } }] = 1 ∧
    ∃ c : ExecuteChunk,
      ([StreamItem.ok { output := none
                        is_final := true
                        metadata := some { exit_code := 0, timed_out := false } }] : List StreamItem).getLast?
        = some (.ok c) ∧ c.is_final = true :=
  stream_final_amended fx1 "bash" "true" [] (.exited (some 0)) _ rfl rfl

/-- C6 counterexample: a request with a known language and code that is empty
after trimming is not rejected by the guest server: the dispatch succeeds and
the code is executed (`python3 -c ""`).  Moreover `"python3"`, which is not
in the claim's enumerated set, is accepted rather than rejected. -/
theorem guest_validation_counterexample :
    rustTrim "" = "" ∧
    dispatch fx1 false "python" "" = .ok ("python3", ["-c", ""], none) ∧
    (execute fx1 "python" "" (.completed "" "" (some 0))).response =
      .ok { stdout := "", stderr := "", exit_code := 0, timed_out := false } ∧
    dispatch fx1 false "python3" "print(1)" = .ok ("python3", ["-c", "print(1)"], none) :=
  ⟨rfl, rfl, rfl, rfl⟩

/-- The alias set actually accepted by the guest language match. -/
def supportedLanguage (l : String) : Bool :=
  l == "python" || l == "python3" || l == "bash" || l == "sh" || l == "shell" ||
  l == "javascript" || l == "node" || l == "go" || l == "golang" || l == "rust" || l == "rs"

/-- C6 (amended): the guest rejects exactly the languages outside the alias
set `{python, python3, bash, sh, shell, javascript, node, go, golang, rust,
rs}` with `InvalidArgument`, executing nothing on both the unary and the
streaming path; it performs no empty-code validation — code that is empty
after trimming is dispatched to the interpreter (the empty-code check lives
in the agent controller instead). -/
theorem guest_validation_amended (fx : GuestFx) (language code : String)
    (h : supportedLanguage language = false) :
    (∀ streaming : Bool, dispatch fx streaming language code =
      .error (.invalidArgument ("Unsupported language: " ++ language ++
        ". Supported: python, bash/sh, javascript, go, rust"))) ∧
    (∀ outcome : ChildOutcome, (execute fx language code outcome).response =
      .error (.invalidArgument ("Unsupported language: " ++ language ++
        ". Supported: python, bash/sh, javascript, go, rust"))) ∧
    (∀ spawnOk lines w, execute_stream fx language code spawnOk lines w =
      .error (.invalidArgument ("Unsupported language: " ++ language ++
        ". Supported: python, bash/sh, javascript, go, rust"))) ∧
    (∀ code' : String, rustTrim code' = "" →
      dispatch fx false "python" code' = .ok ("python3", ["-c", code'], none)) := by
  simp only [supportedLanguage, Bool.or_eq_false_iff, beq_eq_false_iff_ne, ne_eq] at h
  obtain ⟨⟨⟨⟨⟨⟨⟨⟨⟨⟨h1, h2⟩, h3⟩, h4⟩, h5⟩, h6⟩, h7⟩, h8⟩, h9⟩, h10⟩, h11⟩ := h
  have hdisp : ∀ streaming : Bool, dispatch fx streaming language code =
      .error (.invalidArgument ("Unsupported language: " ++ language ++
        ". Supported: python, bash/sh, javascript, go, rust")) := by
    intro streaming
    simp [dispatch, h1, h2, h3, h4, h5, h6, h7, h8, h9, h10, h11]
  refine ⟨hdisp, ?_, ?_, ?_⟩
  · intro outcome; simp [execute, hdisp false]
  · intro spawnOk lines w; simp [execute_stream, hdisp true]
  · intro code' _; simp [dispatch]

/-- Witness for C6's amended theorem at the unsupported language "cobol". -/
theorem guest_validation_amended_witness :
    (∀ streaming : Bool, dispatch fx1 streaming "cobol" "x" =
      .error (.invalidArgument ("Unsupported language: " ++ "cobol" ++
        ". Supported: python, bash/sh, javascript, go, rust"))) ∧
    (∀ outcome : ChildOutcome, (execute fx1 "cobol" "x" outcome).response =
      .error (.invalidArgument ("Unsupported language: " ++ "cobol" ++
        ". Supported: python, bash/sh, javascript, go, rust"))) ∧
    (∀ spawnOk lines w, execute_stream fx1 "cobol" "x" spawnOk lines w =
      .error (.invalidArgument ("Unsupported language: " ++ "cobol" ++
        ". Supported: python, bash/sh, javascript, go, rust"))) ∧
    (∀ code' : String, rustTrim code' = "" →
      dispatch fx1 false "python" code' = .ok ("python3", ["-c", code'], none)) :=
  guest_validation_amended fx1 "cobol" "x" (by decide)

/-- C10: when the unary path times out, everything the child produced is
discarded: the response is exactly `stdout = ""`, `stderr = "Execution timed
out"`, `exit_code = -1`, `timed_out = true` — whereas the streaming path
delivers every line chunk produced before the timeout, followed by the
timeout `Final` chunk. -/
theorem unary_timeout_discards_output (fx : GuestFx) (language code : String)
    (cmd : String × List String × Option String)
    (h : dispatch fx false language code = .ok cmd) :
    execute fx language code .timedOut =
      { response := .ok { stdout := ""
                          stderr := "Execution timed out"
                          exit_code := -1
                          timed_out := true }
        childKilled := false } ∧
    ∀ (lines : List OutLine) (run : StreamRun),
      execute_stream fx language code true lines .timedOut = .ok run →
      run.items = lines.map (fun l => .ok (lineChunk l)) ++ (finalItems .timedOut).1 := by
  constructor
  · simp [execute, h]
  · intro lines run hrun
    unfold execute_stream at hrun
    cases hd : dispatch fx true language code with
    | error st => rw [hd] at hrun; cases hrun
    | ok cmd2 =>
        rw [hd] at hrun
        simp only [if_pos rfl, ite_true] at hrun
        cases hrun; rfl

/-- Witness for C10 at the concrete failing input of the timeout scenario. -/
theorem unary_timeout_discards_output_witness :
    execute fx1 "bash" "sleep 5" .timedOut =
      { response := .ok { stdout := ""
                          stderr := "Execution timed out"
                          exit_code := -1
                          timed_out := true }
        childKilled := false } :=
  (unary_timeout_discards_output fx1 "bash" "sleep 5" ("/bin/sh", ["-c", "sleep 5"], none) rfl).1

/-!
## Vsock handshake (src/grpc/execution.rs, `vsock_handshake`)

After sending `CONNECT {port}\n` the host reads one line with a 5-second
timeout.  The read can yield a line, fail, or time out; the response check is
`response.trim().starts_with("OK ")` — the port suffix is never parsed.
(Error-message payloads are abbreviated relative to the source `format!`
strings; only the success/error split matters to the claims.)
-/

inductive ReadOutcome where
  | line (s : String)
  | readFailed (msg : String)
  | timedOut
deriving Repr, DecidableEq

def vsock_handshake (r : ReadOutcome) : Except String Unit :=
  match r with
  | .readFailed m => .error ("Failed to read response: " ++ m)
  | .timedOut => .error "Timeout waiting for handshake response (guest may not be listening)"
  | .line s =>
      if strStartsWith (rustTrim s) "OK " then .ok ()
      else .error ("Unexpected handshake response: " ++ rustTrim s)

/-- Spec-side predicate, following the spec words: the line begins with
`"OK "` and parses as `"OK {host_port}"` with a numeric host port. -/
def specOkPortLine (s : String) : Bool :=
  strStartsWith (rustTrim s) "OK " && allDigits ((rustTrim s).drop 3)

/-- C5 counterexample: the line `"OK abc\n"` does not parse as
`"OK {host_port}"`, yet the handshake succeeds — the code checks only the
three-byte prefix `"OK "` and never parses the port. -/
theorem handshake_counterexample :
    vsock_handshake (.line "OK abc\n") = .ok () ∧ specOkPortLine "OK abc\n" = false := by
  exact ⟨rfl, by decide⟩

/-- C5 (amended): the handshake succeeds if and only if the read completed
with a line whose trimmed form begins with `"OK "` (the host-port suffix is
not validated); a read error or a read that exceeds the 5-second timeout
yields a handshake error. -/
theorem handshake_amended (r : ReadOutcome) :
    vsock_handshake r = .ok () ↔
      ∃ s, r = .line s ∧ strStartsWith (rustTrim s) "OK " = true := by
  cases r with
  | line s =>
      by_cases hs : strStartsWith (rustTrim s) "OK " = true
      · simp [vsock_handshake, hs]
      · simp [vsock_handshake, hs]
  | readFailed m => simp [vsock_handshake]
  | timedOut => simp [vsock_handshake]

/-- Witness for C5's amended theorem at the timed-out read. -/
theorem handshake_amended_witness :
    vsock_handshake .timedOut = .ok () ↔
      ∃ s, ReadOutcome.timedOut = .line s ∧ strStartsWith (rustTrim s) "OK " = true :=
  handshake_amended .timedOut

/-!
## Agent controller (src/agent/controller.rs)

`AgentController::run` keeps a message history and loops: bump the iteration
counter, fail with `MaxIterationsReached` once it exceeds `max_iterations`,
otherwise make one LLM chat call, extract tool calls (native `tool_calls`
filtered non-empty, else the text parser), stop successfully on zero tool
calls, else process each call and loop.  The LLM, the free-text tool-call
parser (`parse_tool_calls_from_text`) and the whole of `execute_code` (VM
acquire → connect → execute → release) are external effects, passed in as
oracles; `execCalls` counts `execute_code` invocations, each of which begins
with a pool acquire.  `RunTrace.chatCalls` and `finalState` are ghost
observables of the loop.
-/

structure FunctionCall where
  name : String
  /-- `arguments["language"].as_str()` -/
  argLanguage : Option String
  /-- `arguments["code"].as_str()` -/
  argCode : Option String
deriving Repr, DecidableEq

structure ToolCall where
  function : FunctionCall
deriving Repr, DecidableEq

structure ChatMessage where
  role : String
  content : String
  tool_calls : Option (List ToolCall)
deriving Repr, DecidableEq

def ChatMessage.system (content : String) : ChatMessage :=
  { role := "system", content := content, tool_calls := none }

def ChatMessage.user (content : String) : ChatMessage :=
  { role := "user", content := content, tool_calls := none }

def ChatMessage.tool (content : String) : ChatMessage :=
  { role := "tool", content := content, tool_calls := none }

/-- `response.message.tool_calls.clone().filter(|tc| !tc.is_empty())
.unwrap_or_else(|| parse_tool_calls_from_text(&content))`. -/
def extractToolCalls (parseFromText : String → List ToolCall) (m : ChatMessage) :
    List ToolCall :=
  match m.tool_calls with
  | some tcs => if tcs.isEmpty then parseFromText m.content else tcs
  | none => parseFromText m.content

/-- `ExecutionRecord`; `duration_ms : f64` omitted. -/
structure ExecutionRecord where
  language : String
  code : String
  stdout : String
  stderr : String
  exit_code : Int
  timed_out : Bool
deriving Repr, DecidableEq

inductive AgentError where
  | maxIterationsReached
  | vmAcquisitionFailed (msg : String)
  | connectionFailed (msg : String)
  | executionFailed (msg : String)
  | ollamaError (msg : String)
deriving Repr, DecidableEq

/-- The `Display` impl of `AgentError`. -/
def AgentError.display : AgentError → String
  | .maxIterationsReached => "Maximum iterations reached"
  | .vmAcquisitionFailed m => "Failed to acquire VM: " ++ m
  | .connectionFailed m => "Failed to connect to guest: " ++ m
  | .executionFailed m => "Execution failed: " ++ m
  | .ollamaError m => "Ollama error: " ++ m

structure LoopState where
  messages : List ChatMessage
  toolCallsMade : Nat
  /-- how many times `execute_code` has been invoked (each invocation starts
  with `pool.acquire`). -/
  execCalls : Nat
  records : List ExecutionRecord
deriving Repr, DecidableEq

/-- The `format!("Exit code: {}\nStdout:\n{}\nStderr:\n{}{}", ...)` sent back
to the LLM on an executed call. -/
def formatToolResponse (r : ExecutionRecord) : String :=
  "Exit code: " ++ toString r.exit_code ++ "\nStdout:\n" ++ r.stdout ++
    "\nStderr:\n" ++ r.stderr ++ (if r.timed_out then "\n(Execution timed out)" else "")

def emptyCodeMsg : String :=
  "Error: code parameter is empty. Please provide actual code to execute."

/-- The body of the `for tool_call in tool_calls` loop for one call. -/
def processToolCall (execOracle : Nat → Except AgentError ExecutionRecord)
    (st : LoopState) (tc : ToolCall) : LoopState :=
  if tc.function.name = "execute_code" then
    let code := tc.function.argCode.getD ""
    if rustTrim code = "" then
      { st with toolCallsMade := st.toolCallsMade + 1,
                messages := st.messages ++ [ChatMessage.tool emptyCodeMsg] }
    else
      match execOracle st.execCalls with
      | .ok record =>
          { st with toolCallsMade := st.toolCallsMade + 1,
                    execCalls := st.execCalls + 1,
                    records := st.records ++ [record],
                    messages := st.messages ++ [ChatMessage.tool (formatToolResponse record)] }
      | .error e =>
          { st with toolCallsMade := st.toolCallsMade + 1,
                    execCalls := st.execCalls + 1,
                    messages := st.messages ++ [ChatMessage.tool ("Error: " ++ e.display)] }
  else st

structure AgentResult where
  final_response : String
  iterations : Nat
  tool_calls_made : Nat
  execution_records : List ExecutionRecord
deriving Repr, DecidableEq

structure RunTrace where
  result : Except AgentError AgentResult
  /-- ghost: number of LLM chat calls made. -/
  chatCalls : Nat
  /-- ghost: message history and counters at loop end. -/
  finalState : LoopState

/-- The `loop` of `AgentController::run`, entered with `iterations = it`
already completed.  `replies k` is the chat endpoint's answer to the k-th
call (`.error` = `ChatError`, propagated by `?` as `OllamaError`). -/
def runAux (maxIterations : Nat) (replies : Nat → Except String ChatMessage)
    (parseFromText : String → List ToolCall)
    (execOracle : Nat → Except AgentError ExecutionRecord)
    (it calls : Nat) (st : LoopState) : RunTrace :=
  if _h : maxIterations < it + 1 then
    { result := .error .maxIterationsReached, chatCalls := calls, finalState := st }
  else
    match replies (it + 1) with
    | .error e => { result := .error (.ollamaError e), chatCalls := calls + 1, finalState := st }
    | .ok msg =>
        let st1 := { st with messages := st.messages ++ [msg] }
        let tcs := extractToolCalls parseFromText msg
        if tcs.isEmpty then
          { result := .ok { final_response := msg.content
                            iterations := it + 1
                            tool_calls_made := st1.toolCallsMade
                            execution_records := st1.records }
            chatCalls := calls + 1
            finalState := st1 }
        else
          runAux maxIterations replies parseFromText execOracle (it + 1) (calls + 1)
            (tcs.foldl (processToolCall execOracle) st1)
termination_by maxIterations + 1 - it
decreasing_by omega

/-- `AgentController::run` from the initial history (system prompt, task). -/
def run (maxIterations : Nat) (replies : Nat → Except String ChatMessage)
    (parseFromText : String → List ToolCall)
    (execOracle : Nat → Except AgentError ExecutionRecord)
    (systemPrompt task : String) : RunTrace :=
  runAux maxIterations replies parseFromText execOracle 0 0
    { messages := [ChatMessage.system systemPrompt, ChatMessage.user task],
      toolCallsMade := 0, execCalls := 0, records := [] }

lemma runAux_eq (maxI : Nat) (replies : Nat → Except String ChatMessage)
    (p : String → List ToolCall) (e : Nat → Except AgentError ExecutionRecord)
    (it calls : Nat) (st : LoopState) :
    runAux maxI replies p e it calls st =
      if maxI < it + 1 then
        { result := .error .maxIterationsReached, chatCalls := calls, finalState := st }
      else
        match replies (it + 1) with
        | .error e2 => { result := .error (.ollamaError e2), chatCalls := calls + 1, finalState := st }
        | .ok msg =>
            let st1 := { st with messages := st.messages ++ [msg] }
            let tcs := extractToolCalls p msg
            if tcs.isEmpty then
              { result := .ok { final_response := msg.content
                                iterations := it + 1
                                tool_calls_made := st1.toolCallsMade
                                execution_records := st1.records }
                chatCalls := calls + 1
                finalState := st1 }
            else
              runAux maxI replies p e (it + 1) (calls + 1) (tcs.foldl (processToolCall e) st1) := by
  rw [runAux]
  rfl

lemma runAux_chatCalls_le (maxI : Nat) (replies : Nat → Except String ChatMessage)
    (p : String → List ToolCall) (e : Nat → Except AgentError ExecutionRecord) :
    ∀ (n it calls : Nat) (st : LoopState), maxI + 1 - it ≤ n →
      (runAux maxI replies p e it calls st).chatCalls ≤ calls + (maxI - it) := by
  intro n
  induction n with
  | zero =>
      intro it calls st hn
      rw [runAux_eq, if_pos (by omega)]
      exact Nat.le_add_right calls _
  | succ n ih =>
      intro it calls st hn
      rw [runAux_eq]
      by_cases hit : maxI < it + 1
      · rw [if_pos hit]
        exact Nat.le_add_right calls _
      · rw [if_neg hit]
        cases hr : replies (it + 1) with
        | error e2 => dsimp only; omega
        | ok msg =>
            dsimp only
            by_cases hemp : (extractToolCalls p msg).isEmpty = true
            · rw [if_pos hemp]; dsimp only; omega
            · rw [if_neg hemp]
              have := ih (it + 1) (calls + 1) ((extractToolCalls p msg).foldl (processToolCall e)
                { st with messages := st.messages ++ [msg] }) (by omega)
              omega

lemma runAux_ok_char (maxI : Nat) (replies : Nat → Except String ChatMessage)
    (p : String → List ToolCall) (e : Nat → Except AgentError ExecutionRecord) :
    ∀ (n it calls : Nat) (st : LoopState) (res : AgentResult), maxI + 1 - it ≤ n →
      (runAux maxI replies p e it calls st).result = .ok res →
      ∃ m, replies res.iterations = .ok m ∧ (extractToolCalls p m).isEmpty = true ∧
        it < res.iterations ∧ res.iterations ≤ maxI := by
  intro n
  induction n with
  | zero =>
      intro it calls st res hn h
      rw [runAux_eq, if_pos (by omega)] at h
      cases h
  | succ n ih =>
      intro it calls st res hn h
      rw [runAux_eq] at h
      by_cases hit : maxI < it + 1
      · rw [if_pos hit] at h; cases h
      · rw [if_neg hit] at h
        cases hr : replies (it + 1) with
        | error e2 => rw [hr] at h; cases h
        | ok msg =>
            rw [hr] at h
            dsimp only at h
            by_cases hemp : (extractToolCalls p msg).isEmpty = true
            · rw [if_pos hemp] at h
              dsimp only at h
              have hres : res = { final_response := msg.content
                                  iterations := it + 1
                                  tool_calls_made := st.toolCallsMade
                                  execution_records := st.records } := (Except.ok.inj h).symm
              subst hres
              exact ⟨msg, hr, hemp, by dsimp only; omega, by dsimp only; omega⟩
            · rw [if_neg hemp] at h
              obtain ⟨m, hm1, hm2, hm3, hm4⟩ := ih (it + 1) (calls + 1) _ res (by omega) h
              exact ⟨m, hm1, hm2, by omega, hm4⟩

lemma runAux_reaches_ok (maxI : Nat) (replies : Nat → Except String ChatMessage)
    (p : String → List ToolCall) (e : Nat → Except AgentError ExecutionRecord) :
    ∀ (n it calls : Nat) (st : LoopState) (k : Nat), maxI + 1 - it ≤ n →
      it < k → k ≤ maxI →
      (∀ j, it < j → j < k → ∃ m, replies j = .ok m ∧ (extractToolCalls p m).isEmpty = false) →
      (∃ m, replies k = .ok m ∧ (extractToolCalls p m).isEmpty = true) →
      ∃ res, (runAux maxI replies p e it calls st).result = .ok res ∧ res.iterations = k := by
  intro n
  induction n with
  | zero => intro it calls st k hn hik hk _ _; omega
  | succ n ih =>
      intro it calls st k hn hik hk hbefore hk2
      rw [runAux_eq, if_neg (by omega)]
      by_cases hstep : it + 1 = k
      · obtain ⟨m, hm1, hm2⟩ := hk2
        rw [hstep, hm1]
        dsimp only
        rw [if_pos hm2]
        exact ⟨_, rfl, rfl⟩
      · obtain ⟨m, hm1, hm2⟩ := hbefore (it + 1) (by omega) (by omega)
        rw [hm1]
        dsimp only
        rw [if_neg (by simp [hm2])]
        exact ih (it + 1) (calls + 1) _ k (by omega) (by omega) hk
          (fun j hj1 hj2 => hbefore j (by omega) hj2) hk2

lemma runAux_all_busy (maxI : Nat) (replies : Nat → Except String ChatMessage)
    (p : String → List ToolCall) (e : Nat → Except AgentError ExecutionRecord) :
    ∀ (n it calls : Nat) (st : LoopState), maxI + 1 - it ≤ n →
      (∀ j, it < j → j ≤ maxI → ∃ m, replies j = .ok m ∧ (extractToolCalls p m).isEmpty = false) →
      (runAux maxI replies p e it calls st).result = .error .maxIterationsReached ∧
      (runAux maxI replies p e it calls st).chatCalls = calls + (maxI - it) := by
  intro n
  induction n with
  | zero =>
      intro it calls st hn hbusy
      rw [runAux_eq, if_pos (by omega)]
      refine ⟨rfl, ?_⟩
      dsimp only
      omega
  | succ n ih =>
      intro it calls st hn hbusy
      rw [runAux_eq]
      by_cases hit : maxI < it + 1
      · rw [if_pos hit]
        refine ⟨rfl, ?_⟩
        dsimp only
        omega
      · rw [if_neg hit]
        obtain ⟨m, hm1, hm2⟩ := hbusy (it + 1) (by omega) (by omega)
        rw [hm1]
        dsimp only
        rw [if_neg (by simp [hm2])]
        obtain ⟨ihr, ihc⟩ := ih (it + 1) (calls + 1) ((extractToolCalls p m).foldl (processToolCall e)
          { st with messages := st.messages ++ [m] }) (by omega)
          (fun j hj1 hj2 => hbusy j (by omega) hj2)
        exact ⟨ihr, by omega⟩

/-- C8: for every task, (1) the number of LLM chat calls is at most
`max_iterations`; (2) a successful run terminates at an assistant reply with
zero tool calls (native and text-parsed combined) within the bound; (3) if
the first reply with zero tool calls is the k-th (k ≤ max_iterations) and no
chat error precedes it, the run succeeds at iteration k; (4) if every reply
up to `max_iterations` carries at least one tool call, the run fails with
`MaxIterationsReached` after exactly `max_iterations` chat calls. -/
theorem agent_iteration_bound (maxIterations : Nat)
    (replies : Nat → Except String ChatMessage)
    (p : String → List ToolCall) (e : Nat → Except AgentError ExecutionRecord)
    (systemPrompt task : String) :
    (run maxIterations replies p e systemPrompt task).chatCalls ≤ maxIterations ∧
    (∀ res, (run maxIterations replies p e systemPrompt task).result = .ok res →
      ∃ m, replies res.iterations = .ok m ∧ (extractToolCalls p m).isEmpty = true ∧
        1 ≤ res.iterations ∧ res.iterations ≤ maxIterations) ∧
    (∀ k, 1 ≤ k → k ≤ maxIterations →
      (∀ j, 1 ≤ j → j < k → ∃ m, replies j = .ok m ∧ (extractToolCalls p m).isEmpty = false) →
      (∃ m, replies k = .ok m ∧ (extractToolCalls p m).isEmpty = true) →
      ∃ res, (run maxIterations replies p e systemPrompt task).result = .ok res ∧
        res.iterations = k) ∧
    ((∀ k, 1 ≤ k → k ≤ maxIterations →
        ∃ m, replies k = .ok m ∧ (extractToolCalls p m).isEmpty = false) →
      (run maxIterations replies p e systemPrompt task).result = .error .maxIterationsReached ∧
      (run maxIterations replies p e systemPrompt task).chatCalls = maxIterations) := by
  refine ⟨?_, ?_, ?_, ?_⟩
  · unfold run
    simpa using runAux_chatCalls_le maxIterations replies p e (maxIterations + 1) 0 0 _ (by omega)
  · intro res h
    unfold run at h
    obtain ⟨m, h1, h2, h3, h4⟩ :=
      runAux_ok_char maxIterations replies p e (maxIterations + 1) 0 0 _ res (by omega) h
    exact ⟨m, h1, h2, h3, h4⟩
  · intro k hk1 hk2 hbefore hk
    unfold run
    exact runAux_reaches_ok maxIterations replies p e (maxIterations + 1) 0 0 _ k (by omega)
      (by omega) hk2 (fun j hj1 hj2 => hbefore j (by omega) hj2) hk
  · intro hbusy
    unfold run
    obtain ⟨h1, h2⟩ := runAux_all_busy maxIterations replies p e (maxIterations + 1) 0 0 _ (by omega)
      (fun j hj1 hj2 => hbusy j (by omega) hj2)
    exact ⟨h1, by omega⟩

/-- An assistant reply carrying one native `execute_code` tool call. -/
def msgW : ChatMessage :=
  { role := "assistant", content := "",
    tool_calls := some [{ function := { name := "execute_code"
                                        argLanguage := none
                                        argCode := some "print(1)" } }] }

/-- Witness for C8: with every reply carrying a tool call, a 2-iteration run
fails with `MaxIterationsReached` after exactly 2 chat calls. -/
theorem agent_iteration_bound_witness :
    (run 2 (fun _ => .ok msgW) (fun _ => []) (fun _ => .error (.executionFailed "x"))
        "s" "t").result = .error .maxIterationsReached ∧
    (run 2 (fun _ => .ok msgW) (fun _ => []) (fun _ => .error (.executionFailed "x"))
        "s" "t").chatCalls = 2 :=
  (agent_iteration_bound 2 (fun _ => .ok msgW) (fun _ => [])
      (fun _ => .error (.executionFailed "x")) "s" "t").2.2.2
    (fun _ _ _ => ⟨msgW, rfl, rfl⟩)

/-- C7: a parsed `execute_code` tool call whose `code` argument is empty
after trimming is handled without invoking `execute_code` (so no VM is
acquired and no record is produced): the state only gains the error tool
message, which begins with "Error: code parameter is empty"; and, as the
last conjunct shows, the loop then proceeds to the next LLM call rather than
aborting. -/
theorem empty_code_guard (e : Nat → Except AgentError ExecutionRecord)
    (st : LoopState) (tc : ToolCall)
    (hname : tc.function.name = "execute_code")
    (hcode : rustTrim (tc.function.argCode.getD "") = "") :
    processToolCall e st tc =
      { st with toolCallsMade := st.toolCallsMade + 1,
                messages := st.messages ++ [ChatMessage.tool emptyCodeMsg] } ∧
    (processToolCall e st tc).execCalls = st.execCalls ∧
    (processToolCall e st tc).records = st.records ∧
    strStartsWith emptyCodeMsg "Error: code parameter is empty" = true ∧
    (∀ (maxI : Nat) (replies : Nat → Except String ChatMessage)
        (p : String → List ToolCall) (it calls : Nat) (st2 : LoopState) (msg : ChatMessage),
      replies (it + 1) = .ok msg →
      extractToolCalls p msg = [tc] →
      ¬ maxI < it + 1 →
      runAux maxI replies p e it calls st2 =
        runAux maxI replies p e (it + 1) (calls + 1)
          (processToolCall e { st2 with messages := st2.messages ++ [msg] } tc)) := by
  have hproc : processToolCall e st tc =
      { st with toolCallsMade := st.toolCallsMade + 1,
                messages := st.messages ++ [ChatMessage.tool emptyCodeMsg] } := by
    simp [processToolCall, hname, hcode]
  refine ⟨hproc, by rw [hproc], by rw [hproc], by decide, ?_⟩
  intro maxI replies p it calls st2 msg hmsg hext hit
  rw [runAux_eq, if_neg hit, hmsg]
  dsimp only
  rw [hext, if_neg (by simp)]
  rfl

/-- Witness for C7 at a concrete whitespace-only tool call. -/
theorem empty_code_guard_witness :
    processToolCall (fun _ => .error (.executionFailed "x"))
        { messages := [], toolCallsMade := 0, execCalls := 0, records := [] }
        { function := { name := "execute_code", argLanguage := some "python", argCode := some "  " } } =
      { messages := [ChatMessage.tool emptyCodeMsg], toolCallsMade := 1, execCalls := 0, records := [] } :=
  (empty_code_guard (fun _ => .error (.executionFailed "x"))
      { messages := [], toolCallsMade := 0, execCalls := 0, records := [] }
      { function := { name := "execute_code", argLanguage := some "python", argCode := some "  " } }
      rfl (by decide)).1

/-!
## Rate limiter (src/security/rate_limit.rs)

Token bucket.  `tokens_scaled` stores tokens × 1000 (the source constant
`SCALE`, written as the literal 1000 throughout this model).  `refill`
advances the clock under the mutex: it computes
`elapsed_seconds * refill_rate * 1000` scaled tokens, and when that is
non-zero updates `last_refill` and adds the tokens capped at
`capacity * 1000`; `try_acquire` refills and then decrements by 1000
exactly when at least 1000 scaled tokens remain.  Time is modelled in
integral milliseconds and `refill_rate` in integral tokens per second, so
the truncated `f64` product `elapsed_secs * rate * 1000` is exactly
`elapsed_ms * rate`.  Calls are modelled sequentially, each `try_acquire`
tagged with its wall-clock time in milliseconds.
-/

structure RLState where
  tokens_scaled : Nat
  /-- `last_refill`, in milliseconds of wall-clock time. -/
  last_refill : Nat
deriving Repr, DecidableEq

/-- `RateLimiter::new`: the bucket starts full. -/
def rlNew (capacity now : Nat) : RLState :=
  { tokens_scaled := capacity * 1000, last_refill := now }

/-- `RateLimiter::refill` called at wall-clock time `now`. -/
def refill (capacity rate now : Nat) (s : RLState) : RLState :=
  if 0 < (now - s.last_refill) * rate then
    { last_refill := now
      tokens_scaled := min (s.tokens_scaled + (now - s.last_refill) * rate) (capacity * 1000) }
  else s

/-- `RateLimiter::try_acquire` at wall-clock time `now`.  The sequential
model collapses the `compare_exchange` loop (uncontended here) into its
effect: decrement by `1000` iff the current count is at least `1000`. -/
def try_acquire (capacity rate now : Nat) (s : RLState) : RLState × Bool :=
  let s1 := refill capacity rate now s
  if 1000 ≤ s1.tokens_scaled then
    ({ s1 with tokens_scaled := s1.tokens_scaled - 1000 }, true)
  else (s1, false)

/-- Run a sequence of `try_acquire` calls at the given times, counting the
calls that returned `true` into the accumulator `k`. -/
def runAcquires (capacity rate : Nat) : List Nat → RLState → Nat → RLState × Nat
  | [], s, k => (s, k)
  | u :: rest, s, k =>
      let r := try_acquire capacity rate u s
      runAcquires capacity rate rest r.1 (k + (if r.2 then 1 else 0))

lemma refill_tokens_le (capacity rate now : Nat) (s : RLState)
    (h : s.tokens_scaled ≤ capacity * 1000) :
    (refill capacity rate now s).tokens_scaled ≤ capacity * 1000 := by
  unfold refill
  split
  · dsimp only; omega
  · exact h

lemma try_acquire_eq_pos (capacity rate now : Nat) (s : RLState)
    (h : 1000 ≤ (refill capacity rate now s).tokens_scaled) :
    try_acquire capacity rate now s =
      ({ tokens_scaled := (refill capacity rate now s).tokens_scaled - 1000
         last_refill := (refill capacity rate now s).last_refill }, true) := by
  unfold try_acquire
  dsimp only
  rw [if_pos h]

lemma try_acquire_eq_neg (capacity rate now : Nat) (s : RLState)
    (h : ¬ 1000 ≤ (refill capacity rate now s).tokens_scaled) :
    try_acquire capacity rate now s = (refill capacity rate now s, false) := by
  unfold try_acquire
  dsimp only
  rw [if_neg h]

lemma try_acquire_tokens_le (capacity rate now : Nat) (s : RLState)
    (h : s.tokens_scaled ≤ capacity * 1000) :
    (try_acquire capacity rate now s).1.tokens_scaled ≤ capacity * 1000 := by
  have h1 := refill_tokens_le capacity rate now s h
  by_cases hc : 1000 ≤ (refill capacity rate now s).tokens_scaled
  · rw [try_acquire_eq_pos capacity rate now s hc]
    dsimp only
    omega
  · rw [try_acquire_eq_neg capacity rate now s hc]
    exact h1

lemma runAcquires_tokens_le (capacity rate : Nat) :
    ∀ (times : List Nat) (s : RLState) (k : Nat), s.tokens_scaled ≤ capacity * 1000 →
      (runAcquires capacity rate times s k).1.tokens_scaled ≤ capacity * 1000 := by
  intro times
  induction times with
  | nil => intro s k h; exact h
  | cons u rest ih =>
      intro s k h
      exact ih _ _ (try_acquire_tokens_le capacity rate u s h)

/-- One `try_acquire` step preserves the window-accounting invariant
`1000 * successes + tokens ≤ capacity * 1000 + rate * (last_refill - t)`,
and moves `last_refill` into `[t, u]`. -/
lemma try_acquire_inv (capacity rate t u k : Nat) (s : RLState) (hrate : 1 ≤ rate)
    (hu : t ≤ u) (hsu : s.last_refill ≤ u)
    (hinv : 1000 * k + s.tokens_scaled ≤ capacity * 1000 + rate * (s.last_refill - t))
    (hside : s.last_refill < t → k = 0) :
    1000 * (k + (if (try_acquire capacity rate u s).2 then 1 else 0))
        + (try_acquire capacity rate u s).1.tokens_scaled
      ≤ capacity * 1000 + rate * ((try_acquire capacity rate u s).1.last_refill - t) ∧
    t ≤ (try_acquire capacity rate u s).1.last_refill ∧
    (try_acquire capacity rate u s).1.last_refill ≤ u := by
  have hrefill :
      1000 * k + (refill capacity rate u s).tokens_scaled
        ≤ capacity * 1000 + rate * ((refill capacity rate u s).last_refill - t) ∧
      t ≤ (refill capacity rate u s).last_refill ∧
      (refill capacity rate u s).last_refill ≤ u := by
    unfold refill
    by_cases hadd : 0 < (u - s.last_refill) * rate
    · rw [if_pos hadd]
      refine ⟨?_, hu, Nat.le_refl u⟩
      dsimp only
      by_cases hlt : s.last_refill < t
      · have hk := hside hlt
        subst hk
        omega
      · have key : rate * (s.last_refill - t) + rate * (u - s.last_refill) = rate * (u - t) := by
          rw [← Nat.mul_add]
          congr 1
          omega
        have hcomm : (u - s.last_refill) * rate = rate * (u - s.last_refill) :=
          Nat.mul_comm _ _
        omega
    · rw [if_neg hadd]
      have hu2 : u = s.last_refill := by
        rcases Nat.mul_eq_zero.mp (Nat.eq_zero_of_not_pos hadd) with h0 | h0
        · omega
        · omega
      exact ⟨hinv, by omega, hsu⟩
  obtain ⟨hr1, hr2, hr3⟩ := hrefill
  by_cases hc : 1000 ≤ (refill capacity rate u s).tokens_scaled
  · rw [try_acquire_eq_pos capacity rate u s hc]
    dsimp only
    rw [if_pos rfl]
    exact ⟨by omega, hr2, hr3⟩
  · rw [try_acquire_eq_neg capacity rate u s hc]
    dsimp only
    rw [if_neg (by simp)]
    exact ⟨by omega, hr2, hr3⟩

/-- Accounting invariant over a whole in-window call sequence, for a
positive integral rate. -/
lemma runAcquires_inv (capacity rate t : Nat) (hrate : 1 ≤ rate) :
    ∀ (times : List Nat) (s : RLState) (k : Nat),
      (∀ u ∈ times, t ≤ u) →
      List.Pairwise (fun a b => a ≤ b) times →
      (∀ u ∈ times, s.last_refill ≤ u) →
      (1000 * k + s.tokens_scaled ≤ capacity * 1000 + rate * (s.last_refill - t)) →
      (s.last_refill < t → k = 0) →
      1000 * (runAcquires capacity rate times s k).2
          + (runAcquires capacity rate times s k).1.tokens_scaled
        ≤ capacity * 1000 + rate * ((runAcquires capacity rate times s k).1.last_refill - t) := by
  intro times
  induction times with
  | nil => intro s k _ _ _ hinv _; exact hinv
  | cons u rest ih =>
      intro s k hge hpw hlast hinv hside
      have hu : t ≤ u := hge u (List.mem_cons_self u rest)
      have hsu : s.last_refill ≤ u := hlast u (List.mem_cons_self u rest)
      obtain ⟨hstep, hge2, hle2⟩ :=
        try_acquire_inv capacity rate t u k s hrate hu hsu hinv hside
      have hpw2 : ∀ v ∈ rest, u ≤ v := fun v hv => (List.pairwise_cons.mp hpw).1 v hv
      exact ih _ _ (fun v hv => hge v (List.mem_cons_of_mem u hv))
        (List.pairwise_cons.mp hpw).2
        (fun v hv => le_trans hle2 (hpw2 v hv))
        hstep (fun hcon => absurd hcon (by omega))

/-- Final `last_refill` stays at most the bound on the call times. -/
lemma runAcquires_last_le (capacity rate B : Nat) :
    ∀ (times : List Nat) (s : RLState) (k : Nat),
      (∀ u ∈ times, u ≤ B) → s.last_refill ≤ B →
      (runAcquires capacity rate times s k).1.last_refill ≤ B := by
  intro times
  induction times with
  | nil => intro s k _ h; exact h
  | cons u rest ih =>
      intro s k hub h
      have hrefl : (refill capacity rate u s).last_refill ≤ B := by
        have hu : u ≤ B := hub u (List.mem_cons_self u rest)
        unfold refill
        split
        · dsimp only; omega
        · omega
      have hlast : (try_acquire capacity rate u s).1.last_refill ≤ B := by
        by_cases hc : 1000 ≤ (refill capacity rate u s).tokens_scaled
        · rw [try_acquire_eq_pos capacity rate u s hc]
          exact hrefl
        · rw [try_acquire_eq_neg capacity rate u s hc]
          exact hrefl
      exact ih _ _ (fun v hv => hub v (List.mem_cons_of_mem u hv)) hlast

/-- The rate-0 degenerate case: `refill` never fires, so the bucket only
drains; successes are bounded by the initial token count. -/
lemma runAcquires_inv_rate_zero (capacity : Nat) :
    ∀ (times : List Nat) (s : RLState) (k : Nat),
      1000 * (runAcquires capacity 0 times s k).2
          + (runAcquires capacity 0 times s k).1.tokens_scaled
        ≤ 1000 * k + s.tokens_scaled := by
  intro times
  induction times with
  | nil => intro s k; exact Nat.le_refl _
  | cons u rest ih =>
      intro s k
      have hzero : refill capacity 0 u s = s := by
        unfold refill
        rw [if_neg (by omega)]
      have hstep : 1000 * (k + (if (try_acquire capacity 0 u s).2 then 1 else 0))
          + (try_acquire capacity 0 u s).1.tokens_scaled ≤ 1000 * k + s.tokens_scaled := by
        by_cases hc : 1000 ≤ (refill capacity 0 u s).tokens_scaled
        · rw [try_acquire_eq_pos capacity 0 u s hc]
          dsimp only
          rw [if_pos rfl, hzero]
          rw [hzero] at hc
          omega
        · rw [try_acquire_eq_neg capacity 0 u s hc]
          dsimp only
          rw [if_neg (by simp), hzero]
          omega
      exact le_trans (ih _ _) hstep

/-- C9: for a limiter with integral `capacity` and `refill_rate` (tokens per
second, wall clock in milliseconds), (1) over any window `[t, t + Tms]`, a
sorted sequence of `try_acquire` calls starting from any state with
`last_refill ≤ t` and at most a full bucket returns `true` at most
`capacity + rate * Tms / 1000` times (stated scaled:
`1000 * successes ≤ 1000 * capacity + rate * Tms`); (2) the scaled token
count never exceeds `capacity * 1000`; (3) `try_acquire` returns `true` iff
it decremented the scaled count by 1000 from a post-refill value `≥ 1000`. -/
theorem rate_limiter_props (capacity rate t Tms : Nat) (s : RLState) (times : List Nat)
    (hcap : s.tokens_scaled ≤ capacity * 1000)
    (hlast : s.last_refill ≤ t)
    (htimes : ∀ u ∈ times, t ≤ u ∧ u ≤ t + Tms)
    (hsort : List.Pairwise (fun a b => a ≤ b) times) :
    1000 * (runAcquires capacity rate times s 0).2 ≤ 1000 * capacity + rate * Tms ∧
    (runAcquires capacity rate times s 0).1.tokens_scaled ≤ capacity * 1000 ∧
    (∀ (now : Nat) (s2 : RLState),
      (try_acquire capacity rate now s2).2 = true ↔
        (1000 ≤ (refill capacity rate now s2).tokens_scaled ∧
         (try_acquire capacity rate now s2).1.tokens_scaled =
           (refill capacity rate now s2).tokens_scaled - 1000)) := by
  refine ⟨?_, runAcquires_tokens_le capacity rate times s 0 hcap, ?_⟩
  · rcases Nat.eq_zero_or_pos rate with hr0 | hrate
    · subst hr0
      have h := runAcquires_inv_rate_zero capacity times s 0
      omega
    · have hinv0 : 1000 * 0 + s.tokens_scaled
          ≤ capacity * 1000 + rate * (s.last_refill - t) := by omega
      have hmain := runAcquires_inv capacity rate t hrate times s 0
        (fun u hu => (htimes u hu).1) hsort
        (fun u hu => le_trans hlast (htimes u hu).1)
        hinv0 (fun _ => rfl)
      have hend := runAcquires_last_le capacity rate (t + Tms) times s 0
        (fun u hu => (htimes u hu).2) (by omega)
      have hmul : rate * ((runAcquires capacity rate times s 0).1.last_refill - t)
          ≤ rate * Tms := Nat.mul_le_mul_left rate (by omega)
      omega
  · intro now s2
    by_cases hc : 1000 ≤ (refill capacity rate now s2).tokens_scaled
    · rw [try_acquire_eq_pos capacity rate now s2 hc]
      simp [hc]
    · rw [try_acquire_eq_neg capacity rate now s2 hc]
      simp [hc]

/-- Witness for C9 at `capacity = 3`, `rate = 1`, window `[0, 1000]` and five
calls: at most four can succeed (in fact three do). -/
theorem rate_limiter_props_witness :
    1000 * (runAcquires 3 1 [0, 0, 0, 0, 500] { tokens_scaled := 3000, last_refill := 0 } 0).2
        ≤ 1000 * 3 + 1 * 1000 ∧
    (runAcquires 3 1 [0, 0, 0, 0, 500] { tokens_scaled := 3000, last_refill := 0 } 0).1.tokens_scaled
        ≤ 3 * 1000 ∧
    (∀ (now : Nat) (s2 : RLState),
      (try_acquire 3 1 now s2).2 = true ↔
        (1000 ≤ (refill 3 1 now s2).tokens_scaled ∧
         (try_acquire 3 1 now s2).1.tokens_scaled =
           (refill 3 1 now s2).tokens_scaled - 1000)) :=
  rate_limiter_props 3 1 0 1000 { tokens_scaled := 3000, last_refill := 0 } [0, 0, 0, 0, 500]
    (by decide) (by decide) (by decide) (by decide)

end Neurovisor
